import Mathlib

/-
Verification of the prediction-market trading core:
shallow embedding of src/risk_manager.py, src/strategies.py,
src/market_analyzer.py and src/llm_analyzer.py into Lean 4,
with Python floats modelled as rationals and Python dicts as
association lists.
-/

namespace Market

/-- A market dictionary as consumed by the analyzers and strategies.
Each field models an optional key of the Manifold market dict; `none`
means the key is absent, so that `dict.get(key, default)` is modelled
by `Option.getD`. -/
structure Snapshot where
  probability : Option ℚ
  totalLiquidity : Option ℚ
  volume24Hours : Option ℚ
  closeTime : Option ℤ
deriving DecidableEq, Repr

end Market

namespace MarketAnalyzer

/-- Configuration of `MarketAnalyzer.__init__` (the `target_creator`
field plays no role in evaluation and is omitted). -/
structure Config where
  min_liquidity : ℚ
deriving DecidableEq, Repr

/-- The scores dictionary produced by `MarketAnalyzer.evaluate_market`. -/
structure EvalScores where
  liquidity_score : ℚ
  time_score : ℚ
  volatility_score : ℚ
  volume_score : ℚ
  overall_score : ℚ
deriving DecidableEq, Repr

/-- `MarketAnalyzer._calculate_liquidity_score`. -/
def liquidityScore (cfg : Config) (m : Market.Snapshot) : ℚ :=
  let total_liquidity := m.totalLiquidity.getD 0
  if total_liquidity < cfg.min_liquidity then 0
  else min 1 (total_liquidity / 200)

/-- `MarketAnalyzer._calculate_time_score`.  The Python code reads the
wall clock via `datetime.now()`; the embedding passes the current time
`now` (in epoch seconds) explicitly.  `closeTime` is in milliseconds.
The Python guard `if not close_time` is true both for a missing key and
for the value 0.  The surrounding try/except (for out-of-range
timestamps) cannot fire in the rational model and is not represented. -/
def timeScore (m : Market.Snapshot) (now : ℚ) : ℚ :=
  match m.closeTime with
  | none => 1/2
  | some ct =>
    if ct = 0 then 1/2
    else
      let time_remaining := (ct : ℚ) / 1000 - now
      if time_remaining < 0 then 0
      else if time_remaining < 86400 then 3/10
      else if time_remaining < 604800 then 1
      else if time_remaining < 2592000 then 7/10
      else 2/5

/-- `MarketAnalyzer._calculate_volatility_score`.  Note the source uses
default 0 for the volume lookup but default 1 for the liquidity lookup. -/
def volatilityScore (m : Market.Snapshot) : ℚ :=
  let volume_24h := m.volume24Hours.getD 0
  let liquidity := m.totalLiquidity.getD 1
  let turnover_rate := if liquidity > 0 then volume_24h / liquidity else 0
  min 1 (turnover_rate * 2)

/-- `MarketAnalyzer._calculate_volume_score`. -/
def volumeScore (m : Market.Snapshot) : ℚ :=
  min 1 ((m.volume24Hours.getD 0) / 100)

/-- `MarketAnalyzer.evaluate_market`: the four sub-scores plus the
weighted overall score (weights 0.3, 0.25, 0.25, 0.2). -/
def evaluateMarket (cfg : Config) (m : Market.Snapshot) (now : ℚ) : EvalScores :=
  let l := liquidityScore cfg m
  let t := timeScore m now
  let vt := volatilityScore m
  let v := volumeScore m
  ⟨l, t, vt, v, l * (3/10) + t * (1/4) + vt * (1/4) + v * (1/5)⟩

end MarketAnalyzer

namespace RiskManager

/-- Constructor arguments of `RiskManager.__init__`.  The concurrency
cap `max_markets_open` is an integer count, modelled as ℕ. -/
structure Config where
  max_position_size : ℚ
  max_portfolio_risk : ℚ
  max_markets_open : ℕ
deriving DecidableEq, Repr

/-- The per-market dict stored by `record_position` (the `timestamp`
field is always `None` at this layer and is omitted). -/
structure Position where
  amount : ℚ
  side : String
  market_prob : ℚ
deriving DecidableEq, Repr

/-- `self.open_positions`: a `Dict[str, Dict]`, modelled as an
association list with unique keys maintained by `recordPosition`. -/
abbrev Positions := List (String × Position)

/-- Membership test `market_id in self.open_positions`. -/
def hasKey (ps : Positions) (market_id : String) : Bool :=
  ps.any (fun e => e.1 = market_id)

/-- `sum(pos.get("amount", 0) for pos in self.open_positions.values())`. -/
def totalAtRisk (ps : Positions) : ℚ :=
  (ps.map (fun e => e.2.amount)).sum

/-- `RiskManager.can_trade`. -/
def canTrade (cfg : Config) (ps : Positions) (market_id : String)
    (proposed_bet current_balance : ℚ) : Bool × Option String :=
  if hasKey ps market_id then
    (false, some "Already have position")
  else if proposed_bet > cfg.max_position_size then
    (false, some "Exceeds max position size")
  else
    let total_at_risk := totalAtRisk ps + proposed_bet
    if current_balance > 0 ∧ total_at_risk / current_balance > cfg.max_portfolio_risk then
      (false, some "Exceeds portfolio risk limit")
    else if ps.length ≥ cfg.max_markets_open then
      (false, some "At max open positions")
    else
      (true, none)

/-- `RiskManager.adjust_bet_size`. -/
def adjustBetSize (cfg : Config) (ps : Positions)
    (proposed_bet current_balance : ℚ) : ℚ :=
  let adjusted := proposed_bet
  let adjusted := min adjusted cfg.max_position_size
  let adjusted :=
    if current_balance > 0 then
      min adjusted (current_balance * cfg.max_portfolio_risk - totalAtRisk ps)
    else adjusted
  max 0 adjusted

/-- `RiskManager.record_position`: dict assignment
`self.open_positions[market_id] = ...`, overwriting an existing entry
for the same key and appending a fresh key at the end. -/
def recordPosition (ps : Positions) (market_id : String) (amount : ℚ)
    (side : String) (market_prob : ℚ) : Positions :=
  if hasKey ps market_id then
    ps.map (fun e => if e.1 = market_id then (market_id, ⟨amount, side, market_prob⟩) else e)
  else
    ps ++ [(market_id, ⟨amount, side, market_prob⟩)]

/-- `RiskManager.remove_position`: dict deletion, no-op when absent. -/
def removePosition (ps : Positions) (market_id : String) : Positions :=
  ps.filter (fun e => e.1 ≠ market_id)

/-- Position lookup in the dict (the unique binding for a key). -/
def getPos (ps : Positions) (market_id : String) : Option Position :=
  (ps.find? (fun e => e.1 = market_id)).map (fun e => e.2)

/-- One admitted trade in a `can_trade`-then-`record_position`
sequence: the arguments shared by the two calls. -/
structure Admission where
  market_id : String
  amount : ℚ
  balance : ℚ
  side : String
  entry_prob : ℚ
deriving DecidableEq, Repr

/-- The state change of one admission: the subsequent
`record_position` call with the same market id and amount. -/
def step (ps : Positions) (a : Admission) : Positions :=
  recordPosition ps a.market_id a.amount a.side a.entry_prob

/-- Run a sequence of admissions from a given ledger state. -/
def run (ps : Positions) (tr : List Admission) : Positions :=
  tr.foldl step ps

/-- A trace is gated when every `record_position` is immediately
preceded by a `can_trade` call on the same state, with the same market
id and amount, that returned allowed = True. -/
def gated (cfg : Config) : Positions → List Admission → Bool
  | _, [] => true
  | ps, a :: rest =>
    (canTrade cfg ps a.market_id a.amount a.balance).1 && gated cfg (step ps a) rest

end RiskManager

namespace Strategies

/-- An LLM prediction triple `(probability, confidence, reasoning)` as
passed to `should_trade`. -/
abbrev Pred := ℚ × ℚ × String

/-- The shared `should_trade` contract of every strategy variant:
`(market, analysis, llm_prediction) -> (should_trade, bet_amount, side)`. -/
abbrev Strategy := Market.Snapshot → MarketAnalyzer.EvalScores → Option Pred → Bool × ℚ × String

/-- Constructor arguments of `LLMStrategy.__init__`. -/
structure LLMConfig where
  min_confidence : ℚ
  max_bet : ℚ
deriving DecidableEq, Repr

/-- `LLMStrategy.should_trade` (the edge-threshold strategy).  The
Python guard `if not llm_prediction` is true exactly when the
prediction is `None` (a prediction triple is a non-empty tuple, hence
always truthy). -/
def llmShouldTrade (cfg : LLMConfig) (market : Market.Snapshot)
    (_analysis : MarketAnalyzer.EvalScores) (llm_prediction : Option Pred) :
    Bool × ℚ × String :=
  match llm_prediction with
  | none => (false, 0, "NO")
  | some (llm_prob, confidence, _) =>
    let current_prob := market.probability.getD (1/2)
    if confidence < cfg.min_confidence then (false, 0, "NO")
    else
      let edge := |llm_prob - current_prob|
      if edge < 1/20 then (false, 0, "NO")
      else
        let side := if llm_prob > current_prob then "YES" else "NO"
        let bet_amount := min cfg.max_bet (edge * confidence * 100)
        (true, bet_amount, side)

/-- Constructor arguments of `KellyStrategy.__init__`. -/
structure KellyConfig where
  max_bet : ℚ
  kelly_fraction : ℚ
deriving DecidableEq, Repr

/-- `KellyStrategy.should_trade`.  The two arms of the source if/else
produce the Kelly fraction and side, or decline early when the
reframed edge is non-positive; the amount cap and the minimum-bet
floor follow. -/
def kellyShouldTrade (cfg : KellyConfig) (market : Market.Snapshot)
    (_analysis : MarketAnalyzer.EvalScores) (llm_prediction : Option Pred) :
    Bool × ℚ × String :=
  match llm_prediction with
  | none => (false, 0, "NO")
  | some (llm_prob, _confidence, _) =>
    let current_prob := market.probability.getD (1/2)
    let branch : Option (ℚ × String) :=
      if llm_prob > current_prob then
        let p := llm_prob
        let q := current_prob
        let edge := p - q
        if edge ≤ 0 then none
        else some (if q < 1 then edge / (1 - q) else 0, "YES")
      else
        let p := 1 - llm_prob
        let q := 1 - current_prob
        let edge := p - q
        if edge ≤ 0 then none
        else some (if q < 1 then edge / (1 - q) else 0, "NO")
    match branch with
    | none => (false, 0, "NO")
    | some (kelly, side) =>
      let bet_amount := min cfg.max_bet (kelly * cfg.kelly_fraction * 100)
      if bet_amount < 1 then (false, 0, "NO")
      else (true, bet_amount, side)

/-- Default weights of `CompositeStrategy.__init__` when `weights` is
falsy: `[1.0 / len(strategies)] * len(strategies)`. -/
def defaultWeights (n : ℕ) : List ℚ :=
  List.replicate n (1 / n)

/-- `CompositeStrategy.should_trade`: collect `(bet_amount * weight,
side)` from the sub-strategies that recommended trading (pairing
strategies with weights by `zip`), then compare the per-side sums. -/
def compositeShouldTrade (strategies : List Strategy) (weights : List ℚ)
    (market : Market.Snapshot) (analysis : MarketAnalyzer.EvalScores)
    (llm_prediction : Option Pred) : Bool × ℚ × String :=
  let recommendations := (strategies.zip weights).filterMap fun sw =>
    let r := sw.1 market analysis llm_prediction
    if r.1 then some (r.2.1 * sw.2, r.2.2) else none
  if recommendations = [] then (false, 0, "NO")
  else
    let yes_bets := ((recommendations.filter (fun ab => ab.2 = "YES")).map (fun ab => ab.1)).sum
    let no_bets := ((recommendations.filter (fun ab => ab.2 = "NO")).map (fun ab => ab.1)).sum
    if yes_bets > no_bets then (true, yes_bets, "YES")
    else if no_bets > yes_bets then (true, no_bets, "NO")
    else (false, 0, "NO")

end Strategies

namespace LLMAnalyzer

/-- The ASCII range of the Python regex class `\s`. -/
def isPyWs (c : Char) : Bool :=
  c = ' ' || c = '\t' || c = '\n' || c = '\r' || c = '\x0b' || c = '\x0c'

/-- JSON insignificant whitespace (space, tab, newline, carriage return). -/
def skipWsJ (s : List Char) : List Char :=
  s.dropWhile (fun c => c = ' ' || c = '\t' || c = '\n' || c = '\r')

/-- Value of a string of decimal digits. -/
def natOfDigits (l : List Char) : ℕ :=
  l.foldl (fun n c => 10 * n + (c.toNat - 48)) 0

/-- `re.search(r"\x7b[^\x7d]+\x7d", response, re.DOTALL)`: the leftmost
substring consisting of an opening brace, one or more non-closing-brace
characters, and a closing brace.  Returns the whole match. -/
def braceSearch : List Char → Option (List Char)
  | [] => none
  | c :: rest =>
    if c = '{' then
      let body := rest.takeWhile (fun d => d ≠ '}')
      if body.length < rest.length then
        if body ≠ [] then some ('{' :: (body ++ ['}']))
        else braceSearch rest
      else none
    else braceSearch rest

/-- Literal prefix matching, yielding the remainder on success. -/
def stripPrefixChars : List Char → List Char → Option (List Char)
  | [], s => some s
  | _, [] => none
  | a :: as, b :: bs => if a = b then stripPrefixChars as bs else none

/-- After the literal label, the regex tail of
`label["\x27]?\s*:\s*([0-9.]+)` (an optional quote, optional
whitespace, a colon, optional whitespace, then the captured group of
digits and dots).  The optional quote is greedy, with backtracking. -/
def matchAfterLabel (s : List Char) : Option (List Char) :=
  let attempt : List Char → Option (List Char) := fun t =>
    let t1 := t.dropWhile isPyWs
    match t1 with
    | ':' :: t2 =>
      let t3 := t2.dropWhile isPyWs
      let grp := t3.takeWhile (fun c => c.isDigit || c = '.')
      if grp = [] then none else some grp
    | _ => none
  match s with
  | c :: rest =>
    if c = '"' || c = '\'' then (attempt rest).orElse (fun _ => attempt s)
    else attempt s
  | [] => attempt []

/-- `re.search` for a labelled numeric field: try the full pattern at
each position from the left, returning the first captured group. -/
def searchLabel (label : List Char) : List Char → Option (List Char)
  | [] => none
  | c :: rest =>
    match stripPrefixChars label (c :: rest) with
    | some after =>
      match matchAfterLabel after with
      | some grp => some grp
      | none => searchLabel label rest
    | none => searchLabel label rest

/-- The literal label of the probability fallback pattern. -/
def probLabel : List Char := "probability".toList

/-- The literal label of the confidence fallback pattern. -/
def confLabel : List Char := "confidence".toList

/-- Python `float(str)`: optional surrounding whitespace and sign, then
a decimal mantissa with at most one dot and at least one digit, with an
optional exponent.  `none` models a raised ValueError.  The `inf`/`nan`
words and underscore digit separators fall outside the rational model
and are not represented. -/
def pyFloatOfString (s : List Char) : Option ℚ :=
  let t := (((s.dropWhile isPyWs).reverse).dropWhile isPyWs).reverse
  let signRest : Bool × List Char :=
    match t with
    | '-' :: u => (true, u)
    | '+' :: u => (false, u)
    | _ => (false, t)
  let neg := signRest.1
  let t1 := signRest.2
  let ip := t1.takeWhile Char.isDigit
  let r1 := t1.dropWhile Char.isDigit
  let fracRest : List Char × List Char :=
    match r1 with
    | '.' :: u => (u.takeWhile Char.isDigit, u.dropWhile Char.isDigit)
    | _ => ([], r1)
  let fpds := fracRest.1
  let r2 := fracRest.2
  if ip = [] ∧ fpds = [] then none
  else
    let mant : ℚ := (natOfDigits ip : ℚ) + (natOfDigits fpds : ℚ) / (10:ℚ) ^ fpds.length
    match r2 with
    | [] => some (if neg then -mant else mant)
    | e :: u =>
      if e = 'e' || e = 'E' then
        let esignRest : ℤ × List Char :=
          match u with
          | '+' :: v => (1, v)
          | '-' :: v => (-1, v)
          | _ => (1, u)
        let eds := esignRest.2.takeWhile Char.isDigit
        if eds = [] then none
        else if esignRest.2.dropWhile Char.isDigit ≠ [] then none
        else
          let v := mant * (10:ℚ) ^ (esignRest.1 * (natOfDigits eds : ℤ))
          some (if neg then -v else v)
      else none

/-- Decoded JSON values, as produced by `json.loads`. -/
inductive Json where
  | null : Json
  | bool : Bool → Json
  | num : ℚ → Json
  | str : String → Json
  | arr : List Json → Json
  | obj : List (String × Json) → Json
deriving Repr

/-- Value of one hexadecimal digit. -/
def hexVal (c : Char) : Option ℕ :=
  if c.isDigit then some (c.toNat - 48)
  else if 'a' ≤ c ∧ c ≤ 'f' then some (c.toNat - 87)
  else if 'A' ≤ c ∧ c ≤ 'F' then some (c.toNat - 55)
  else none

/-- Single-character JSON string escapes. -/
def escChar (c : Char) : Option Char :=
  if c = '"' then some '"'
  else if c = '\\' then some '\\'
  else if c = '/' then some '/'
  else if c = 'b' then some '\x08'
  else if c = 'f' then some '\x0c'
  else if c = 'n' then some '\n'
  else if c = 'r' then some '\r'
  else if c = 't' then some '\t'
  else none

/-- Body of a JSON string after the opening quote: returns the decoded
characters and the remainder after the closing quote.  Unescaped
control characters are rejected as in strict-mode `json.loads`. -/
def parseJStringBody : ℕ → List Char → Option (List Char × List Char)
  | 0, _ => none
  | _, [] => none
  | fuel + 1, c :: rest =>
    if c = '"' then some ([], rest)
    else if c = '\\' then
      match rest with
      | [] => none
      | e :: rest2 =>
        if e = 'u' then
          match rest2 with
          | h1 :: h2 :: h3 :: h4 :: rest3 =>
            match hexVal h1, hexVal h2, hexVal h3, hexVal h4 with
            | some a, some b, some c3, some d =>
              (parseJStringBody fuel rest3).map
                (fun pr => (Char.ofNat (((a * 16 + b) * 16 + c3) * 16 + d) :: pr.1, pr.2))
            | _, _, _, _ => none
          | _ => none
        else
          match escChar e with
          | some ec => (parseJStringBody fuel rest2).map (fun pr => (ec :: pr.1, pr.2))
          | none => none
    else if c.toNat < 32 then none
    else (parseJStringBody fuel rest).map (fun pr => (c :: pr.1, pr.2))

/-- A JSON number token, per the grammar
`-?(0|[1-9][0-9]*)(\.[0-9]+)?([eE][+-]?[0-9]+)?`, longest match;
trailing characters that do not extend a valid number are left for the
surrounding parser, as with the tokenizer regex of the json module. -/
def parseJNumber (s : List Char) : Option (ℚ × List Char) :=
  let signRest : Bool × List Char :=
    match s with
    | '-' :: t => (true, t)
    | _ => (false, s)
  let neg := signRest.1
  let s1 := signRest.2
  let ipAll := s1.takeWhile Char.isDigit
  if ipAll = [] then none
  else
    let ipRest : List Char × List Char :=
      if ipAll.headI = '0' then (['0'], s1.drop 1)
      else (ipAll, s1.dropWhile Char.isDigit)
    let ipd := ipRest.1
    let r1 := ipRest.2
    let fracRest : ℚ × ℚ × List Char :=
      match r1 with
      | '.' :: t =>
        let ds := t.takeWhile Char.isDigit
        if ds = [] then (0, 1, r1)
        else ((natOfDigits ds : ℚ), (10:ℚ) ^ ds.length, t.dropWhile Char.isDigit)
      | _ => (0, 1, r1)
    let r2 := fracRest.2.2
    let expRest : ℤ × List Char :=
      match r2 with
      | e :: t =>
        if e = 'e' || e = 'E' then
          let esignRest : ℤ × List Char :=
            match t with
            | '+' :: u => (1, u)
            | '-' :: u => (-1, u)
            | _ => (1, t)
          let ds := esignRest.2.takeWhile Char.isDigit
          if ds = [] then (0, r2)
          else (esignRest.1 * (natOfDigits ds : ℤ), esignRest.2.dropWhile Char.isDigit)
        else (0, r2)
      | [] => (0, r2)
    let mag : ℚ := ((natOfDigits ipd : ℚ) + fracRest.1 / fracRest.2.1) * (10:ℚ) ^ expRest.1
    some (if neg then -mag else mag, expRest.2)

mutual

/-- One JSON value at the head of the input (fuel-indexed recursion;
the callers supply fuel exceeding any possible recursion depth). -/
def parseJValue : ℕ → List Char → Option (Json × List Char)
  | 0, _ => none
  | fuel + 1, s =>
    match s with
    | [] => none
    | c :: rest =>
      if c = '"' then
        (parseJStringBody (rest.length + 1) rest).map
          (fun pr => (Json.str pr.1.asString, pr.2))
      else if c = '{' then
        match skipWsJ rest with
        | '}' :: r => some (Json.obj [], r)
        | s1 => (parseJObjTail fuel s1).map (fun pr => (Json.obj pr.1, pr.2))
      else if c = '[' then
        match skipWsJ rest with
        | ']' :: r => some (Json.arr [], r)
        | s1 => (parseJArrTail fuel s1).map (fun pr => (Json.arr pr.1, pr.2))
      else if c = 't' then
        (stripPrefixChars ['r', 'u', 'e'] rest).map (fun r => (Json.bool true, r))
      else if c = 'f' then
        (stripPrefixChars ['a', 'l', 's', 'e'] rest).map (fun r => (Json.bool false, r))
      else if c = 'n' then
        (stripPrefixChars ['u', 'l', 'l'] rest).map (fun r => (Json.null, r))
      else
        (parseJNumber s).map (fun pr => (Json.num pr.1, pr.2))

/-- Members of a JSON object, positioned at a key. -/
def parseJObjTail : ℕ → List Char → Option (List (String × Json) × List Char)
  | 0, _ => none
  | fuel + 1, s =>
    match s with
    | '"' :: rest =>
      match parseJStringBody (rest.length + 1) rest with
      | none => none
      | some (key, r1) =>
        match skipWsJ r1 with
        | ':' :: r2 =>
          match parseJValue fuel (skipWsJ r2) with
          | none => none
          | some (v, r3) =>
            match skipWsJ r3 with
            | ',' :: r4 =>
              (parseJObjTail fuel (skipWsJ r4)).map
                (fun pr => ((key.asString, v) :: pr.1, pr.2))
            | '}' :: r4 => some ([(key.asString, v)], r4)
            | _ => none
        | _ => none
    | _ => none

/-- Elements of a JSON array, positioned at a value. -/
def parseJArrTail : ℕ → List Char → Option (List Json × List Char)
  | 0, _ => none
  | fuel + 1, s =>
    match parseJValue fuel s with
    | none => none
    | some (v, r1) =>
      match skipWsJ r1 with
      | ',' :: r2 => (parseJArrTail fuel (skipWsJ r2)).map (fun pr => (v :: pr.1, pr.2))
      | ']' :: r2 => some ([v], r2)
      | _ => none

end

/-- Models Python `json.loads` on the regex-matched fragment: one JSON
value surrounded only by whitespace; `none` models a raised
JSONDecodeError.  The non-strict extensions outside the rational and
Unicode-scalar model (Infinity, NaN, lone surrogate escapes) are not
represented. -/
def jsonLoads (s : List Char) : Option Json :=
  match parseJValue (2 * s.length + 4) (skipWsJ s) with
  | some (v, rest) => if skipWsJ rest = [] then some v else none
  | none => none

/-- Dict lookup on the decoded object; for duplicate keys the Python
dict keeps the value assigned last. -/
def objGet (l : List (String × Json)) (k : String) : Option Json :=
  (l.reverse.find? (fun kv => kv.1 = k)).map (fun kv => kv.2)

/-- Python `float()` applied to a decoded JSON value; `none` models a
raised TypeError or ValueError. -/
def pyFloatOfJson : Json → Option ℚ
  | Json.num q => some q
  | Json.bool b => some (if b then 1 else 0)
  | Json.str s => pyFloatOfString s.toList
  | _ => none

/-- `float(data.get(key, 0.5))`: an absent key yields the default 0.5. -/
def floatOfField (v : Option Json) : Option ℚ :=
  match v with
  | none => some (1/2)
  | some j => pyFloatOfJson j

/-- The reasoning component of the parser result: Python returns either
a str or, for a non-string `"reasoning"` value, the decoded object
itself. -/
inductive Reasoning where
  | text : String → Reasoning
  | raw : Json → Reasoning
deriving Repr

/-- `max(0.0, min(1.0, x))`. -/
def clamp01 (x : ℚ) : ℚ := max 0 (min 1 x)

/-- The result of the outer `except` handler,
`(0.5, 0.0, f"Parse error: {e}")`; `msg` stands for the Python
exception text, which the embedding does not reproduce verbatim. -/
def parseErrorTriple (msg : String) : ℚ × ℚ × Reasoning :=
  (1/2, 0, Reasoning.text ("Parse error: " ++ msg))

/-- `LLMAnalyzer._parse_response`. -/
def parseResponse (response : String) : ℚ × ℚ × Reasoning :=
  let chars := response.toList
  match braceSearch chars with
  | some cand =>
    match jsonLoads cand with
    | none => parseErrorTriple "json decode failed"
    | some (Json.obj data) =>
      match floatOfField (objGet data "probability") with
      | none => parseErrorTriple "float conversion failed"
      | some prob =>
        match floatOfField (objGet data "confidence") with
        | none => parseErrorTriple "float conversion failed"
        | some confidence =>
          let reasoning :=
            match objGet data "reasoning" with
            | some (Json.str s) => Reasoning.text s
            | some v => Reasoning.raw v
            | none => Reasoning.text "No reasoning provided"
          (clamp01 prob, clamp01 confidence, reasoning)
    | some _ => parseErrorTriple "value has no attribute get"
  | none =>
    let prob_match := searchLabel probLabel chars
    let conf_match := searchLabel confLabel chars
    match prob_match with
    | some g =>
      match pyFloatOfString g with
      | none => parseErrorTriple "float conversion failed"
      | some prob =>
        match conf_match with
        | some g2 =>
          match pyFloatOfString g2 with
          | none => parseErrorTriple "float conversion failed"
          | some confidence => (prob, confidence, Reasoning.text ((chars.take 200).asString))
        | none => (prob, 1/2, Reasoning.text ((chars.take 200).asString))
    | none =>
      match conf_match with
      | some g2 =>
        match pyFloatOfString g2 with
        | none => parseErrorTriple "float conversion failed"
        | some confidence => (1/2, confidence, Reasoning.text ((chars.take 200).asString))
      | none => (1/2, 1/2, Reasoning.text ((chars.take 200).asString))

end LLMAnalyzer

namespace Strategies

/-- The edge strategy as the specification describes it: decline on a
missing prediction, on confidence below the minimum, or on an absolute
edge below 0.05; otherwise side YES exactly when the predicted
probability exceeds the market probability, with amount
`min(max_bet, edge * confidence * 100)`. -/
def edgeStrategySpec (min_confidence max_bet market_prob : ℚ)
    (pred : Option Pred) : Bool × ℚ × String :=
  match pred with
  | none => (false, 0, "NO")
  | some (p, c, _) =>
    if c < min_confidence then (false, 0, "NO")
    else if |p - market_prob| < 1/20 then (false, 0, "NO")
    else (true, min max_bet (|p - market_prob| * c * 100),
          if p > market_prob then "YES" else "NO")

/-- The Kelly strategy as the specification describes it: reframe onto
the favored side, decline on non-positive reframed edge, Kelly
fraction `edge / (1 - q)` with the value 0 when q = 1, amount
`min(max_bet, kelly * kelly_fraction * 100)`, declined below the
minimum bet 1.0. -/
def kellyStrategySpec (max_bet kelly_fraction market_prob : ℚ)
    (pred : Option Pred) : Bool × ℚ × String :=
  match pred with
  | none => (false, 0, "NO")
  | some (prob, _, _) =>
    let favored := if prob > market_prob then "YES" else "NO"
    let p := if prob > market_prob then prob else 1 - prob
    let q := if prob > market_prob then market_prob else 1 - market_prob
    let edge := p - q
    if edge ≤ 0 then (false, 0, "NO")
    else
      let kelly := if q = 1 then 0 else edge / (1 - q)
      let amount := min max_bet (kelly * kelly_fraction * 100)
      if amount < 1 then (false, 0, "NO")
      else (true, amount, favored)

/-- The weighted per-side total over the sub-strategies that
recommended trading, as the specification describes the composite
aggregation rule. -/
def sideTotal (side : String) (strategies : List Strategy) (weights : List ℚ)
    (m : Market.Snapshot) (a : MarketAnalyzer.EvalScores) (p : Option Pred) : ℚ :=
  ((strategies.zip weights).map fun sw =>
    let r := sw.1 m a p
    if r.1 ∧ r.2.2 = side then r.2.1 * sw.2 else 0).sum

/-- Whether some sub-strategy recommended trading. -/
def someRecommended (strategies : List Strategy) (weights : List ℚ)
    (m : Market.Snapshot) (a : MarketAnalyzer.EvalScores) (p : Option Pred) : Bool :=
  (strategies.zip weights).any fun sw => (sw.1 m a p).1

/-- A concrete snapshot used to instantiate universally quantified
statements. -/
def sampleMarket : Market.Snapshot := ⟨some (7/20), none, none, none⟩

/-- Concrete evaluation scores used to instantiate universally
quantified statements (the traded strategies ignore them). -/
def sampleScores : MarketAnalyzer.EvalScores := ⟨0, 0, 0, 0, 0⟩

/-- A constant sub-strategy that always recommends YES with amount 10. -/
def constYes : Strategy := fun _ _ _ => (true, 10, "YES")

/-- A constant sub-strategy that always recommends NO with amount 4. -/
def constNo : Strategy := fun _ _ _ => (true, 4, "NO")

end Strategies


section RiskManagerTheorems

open RiskManager

/-- A fresh key is found at the end of the appended list. -/
theorem find_append_fresh (ps : Positions) (mid : String)
    (x : String × Position) (hx : x.1 = mid) (h : hasKey ps mid = false) :
    (ps ++ [x]).find? (fun e => e.1 = mid) = some x := by
  induction ps with
  | nil => simp [hx]
  | cons e t ih =>
    simp only [hasKey, List.any_cons, Bool.or_eq_false_iff] at h
    rw [List.cons_append, List.find?_cons_of_neg _ (by simpa using h.1)]
    exact ih (by simpa [hasKey] using h.2)

/-- An overwritten key is found with the new value. -/
theorem find_map_replace (ps : Positions) (mid : String) (np : Position)
    (h : hasKey ps mid = true) :
    (ps.map (fun e => if e.1 = mid then (mid, np) else e)).find?
      (fun e => e.1 = mid) = some (mid, np) := by
  induction ps with
  | nil => simp [hasKey] at h
  | cons e t ih =>
    by_cases he : e.1 = mid
    · simp [List.find?_cons, he]
    · have ht : hasKey t mid = true := by
        simp only [hasKey, List.any_cons, Bool.or_eq_true] at h
        rcases h with h | h
        · exact absurd (by simpa using h) he
        · simpa [hasKey] using h
      rw [List.map_cons, if_neg he, List.find?_cons_of_neg _ (by simpa using he)]
      exact ih ht

/-- The recorded entry is stored verbatim, whatever the side token. -/
theorem getPos_record (ps : Positions) (mid : String) (a : ℚ)
    (s : String) (pr : ℚ) :
    getPos (recordPosition ps mid a s pr) mid = some ⟨a, s, pr⟩ := by
  unfold recordPosition getPos
  cases h : hasKey ps mid with
  | false =>
    rw [if_neg (by simp [h]), find_append_fresh ps mid _ rfl h]
    rfl
  | true =>
    rw [if_pos (by simp [h]), find_map_replace ps mid _ h]
    rfl

/-- Claim C4 fails as stated: at balance 0 the portfolio-headroom cap
is skipped, so `adjust_bet_size(50, 0, ...)` with `max_position_size =
100`, `max_portfolio_risk = 0.3` and no open positions returns 50,
while the claimed formula gives `max(0, min(50, 100, 0)) = 0`. -/
theorem C4_counterexample :
    adjustBetSize ⟨100, 3/10, 5⟩ [] 50 0 = 50 ∧
    max 0 (min 50 (min 100 ((0 : ℚ) * (3/10) - totalAtRisk []))) = 0 ∧
    (50 : ℚ) ≠ 0 := by
  refine ⟨?_, ?_, by norm_num⟩
  · norm_num [adjustBetSize, totalAtRisk, min_def, max_def]
  · norm_num [totalAtRisk, min_def, max_def]

/-- Claim C4, amended: when the balance is positive, `adjust_bet_size`
returns `max(0, min(proposed, max_position_size, balance *
max_portfolio_risk - total_at_risk))`; when the balance is
non-positive the portfolio-headroom cap is skipped and the result is
`max(0, min(proposed, max_position_size))`; the result is never
negative; and in scenario E (`max_position_size = 100`, one open
position of 80, `max_portfolio_risk = 0.3`, balance 500) the call
`adjust_bet_size(90, 500, "m2")` returns 70. -/
theorem C4_amended (cfg : Config) (ps : Positions) (bet bal : ℚ) :
    (0 < bal →
      adjustBetSize cfg ps bet bal =
        max 0 (min bet (min cfg.max_position_size
          (bal * cfg.max_portfolio_risk - totalAtRisk ps)))) ∧
    (bal ≤ 0 →
      adjustBetSize cfg ps bet bal = max 0 (min bet cfg.max_position_size)) ∧
    0 ≤ adjustBetSize cfg ps bet bal ∧
    adjustBetSize ⟨100, 3/10, 5⟩ [("m1", ⟨80, "YES", 1/2⟩)] 90 500 = 70 := by
  refine ⟨?_, ?_, ?_, ?_⟩
  · intro h
    simp only [adjustBetSize]
    rw [if_pos h, min_assoc]
  · intro h
    simp only [adjustBetSize]
    rw [if_neg (not_lt.mpr h)]
  · simp only [adjustBetSize]
    exact le_max_left 0 _
  · norm_num [adjustBetSize, totalAtRisk, min_def, max_def]

/-- Witness for C4_amended at a concrete positive balance. -/
theorem C4_witness :
    adjustBetSize ⟨100, 3/10, 5⟩ [] 50 100 =
      max 0 (min 50 (min 100 ((100 : ℚ) * (3/10) - totalAtRisk []))) :=
  (C4_amended ⟨100, 3/10, 5⟩ [] 50 100).1 (by norm_num)

/-- Claim C10 fails as stated: no caller-misuse input fails loudly.
A fresh ledger admits a negative proposed amount (`can_trade` returns
allowed with no reason), `adjust_bet_size` silently clamps a negative
amount to 0, and `record_position` stores an invalid side token
verbatim. -/
theorem C10_counterexample :
    canTrade ⟨100, 3/10, 5⟩ [] "m1" (-5) 100 = (true, none) ∧
    adjustBetSize ⟨100, 3/10, 5⟩ [] (-5) 100 = 0 ∧
    recordPosition [] "m1" 10 "BANANA" (1/2) =
      [("m1", ⟨10, "BANANA", 1/2⟩)] := by
  refine ⟨?_, ?_, rfl⟩
  · norm_num [canTrade, hasKey, totalAtRisk]
  · norm_num [adjustBetSize, totalAtRisk, min_def, max_def]

/-- Claim C10, amended: the ledger boundary performs no input
validation.  On a fresh ledger `can_trade` allows any negative
proposed amount (whenever it is within the position-size cap, the risk
fraction is non-negative and the concurrency cap is positive),
`adjust_bet_size` silently clamps any negative amount to 0 for every
ledger state and balance, and `record_position` silently stores any
side token verbatim for every ledger state. -/
theorem C10_amended (cfg : Config) (mid side : String)
    (bet bal pr : ℚ) (ps : Positions)
    (hneg : bet < 0) (hsize : bet ≤ cfg.max_position_size)
    (hrisk : 0 ≤ cfg.max_portfolio_risk) (hopen : 0 < cfg.max_markets_open) :
    canTrade cfg [] mid bet bal = (true, none) ∧
    adjustBetSize cfg ps bet bal = 0 ∧
    getPos (recordPosition ps mid bet side pr) mid = some ⟨bet, side, pr⟩ := by
  refine ⟨?_, ?_, getPos_record ps mid bet side pr⟩
  · simp only [canTrade]
    rw [if_neg (by simp [hasKey]), if_neg (not_lt.mpr hsize)]
    have hrc : ¬ (bal > 0 ∧ (totalAtRisk [] + bet) / bal > cfg.max_portfolio_risk) := by
      rintro ⟨hb, hd⟩
      have hneg2 : (totalAtRisk [] + bet) / bal < 0 := by
        apply div_neg_of_neg_of_pos _ hb
        simpa [totalAtRisk] using hneg
      linarith
    rw [if_neg hrc, if_neg (by simp only [List.length_nil]; omega)]
  · simp only [adjustBetSize]
    have hm : min bet cfg.max_position_size ≤ 0 :=
      le_trans (min_le_left _ _) (le_of_lt hneg)
    rcases le_or_lt bal 0 with hb | hb
    · rw [if_neg (not_lt.mpr hb)]
      exact max_eq_left hm
    · rw [if_pos hb]
      exact max_eq_left (le_trans (min_le_left _ _) hm)

/-- Witness for C10_amended at concrete inputs. -/
theorem C10_witness :
    canTrade ⟨100, 3/10, 5⟩ [] "m9" (-7) 40 = (true, none) ∧
    adjustBetSize ⟨100, 3/10, 5⟩ [] (-7) 40 = 0 ∧
    getPos (recordPosition [] "m9" (-7) "MAYBE" (1/4)) "m9" =
      some ⟨-7, "MAYBE", 1/4⟩ :=
  C10_amended ⟨100, 3/10, 5⟩ "m9" "MAYBE" (-7) 40 (1/4) []
    (by norm_num) (by norm_num) (by norm_num) (by norm_num)

end RiskManagerTheorems

section C1Theorems

open RiskManager

/-- Everything that a successful `can_trade` guarantees about the
state it was called on. -/
theorem canTrade_true_facts {cfg : Config} {ps : Positions} {mid : String}
    {bet bal : ℚ} (h : (canTrade cfg ps mid bet bal).1 = true) :
    hasKey ps mid = false ∧ bet ≤ cfg.max_position_size ∧
    (0 < bal → totalAtRisk ps + bet ≤ bal * cfg.max_portfolio_risk) ∧
    ps.length < cfg.max_markets_open := by
  simp only [canTrade] at h
  split_ifs at h with h1 h2 h3 h4
  refine ⟨by simpa using h1, not_lt.mp h2, ?_, not_le.mp h4⟩
  intro hb
  have hd : (totalAtRisk ps + bet) / bal ≤ cfg.max_portfolio_risk :=
    not_lt.mp (fun hc => h3 ⟨hb, hc⟩)
  have h5 := (div_le_iff₀ hb).mp hd
  linarith

/-- Recording a fresh market id adds its amount to the total at risk. -/
theorem totalAtRisk_record_fresh {ps : Positions} {mid : String}
    (h : hasKey ps mid = false) (a : ℚ) (s : String) (pr : ℚ) :
    totalAtRisk (recordPosition ps mid a s pr) = totalAtRisk ps + a := by
  unfold recordPosition
  rw [if_neg (by simp [h])]
  simp [totalAtRisk]

/-- Recording a fresh market id grows the position count by one. -/
theorem length_record_fresh {ps : Positions} {mid : String}
    (h : hasKey ps mid = false) (a : ℚ) (s : String) (pr : ℚ) :
    (recordPosition ps mid a s pr).length = ps.length + 1 := by
  unfold recordPosition
  rw [if_neg (by simp [h])]
  simp

/-- Running an appended trace runs the two parts in sequence. -/
theorem run_append (ps : Positions) (l1 l2 : List Admission) :
    run ps (l1 ++ l2) = run (run ps l1) l2 :=
  List.foldl_append ..

/-- A gated trace splits into a gated prefix and a gated suffix from
the intermediate state. -/
theorem gated_append_split {cfg : Config} {ps : Positions}
    {l1 l2 : List Admission} (h : gated cfg ps (l1 ++ l2) = true) :
    gated cfg ps l1 = true ∧ gated cfg (run ps l1) l2 = true := by
  induction l1 generalizing ps with
  | nil => exact ⟨rfl, h⟩
  | cons a t ih =>
    simp only [List.cons_append, gated, Bool.and_eq_true] at h ⊢
    obtain ⟨h1, h2⟩ := h
    obtain ⟨h3, h4⟩ := ih h2
    exact ⟨⟨h1, h3⟩, h4⟩

/-- Along a gated trace the position count never passes the cap. -/
theorem run_length_le {cfg : Config} {ps : Positions} {tr : List Admission}
    (hg : gated cfg ps tr = true) (h0 : ps.length ≤ cfg.max_markets_open) :
    (run ps tr).length ≤ cfg.max_markets_open := by
  induction tr generalizing ps with
  | nil => exact h0
  | cons a t ih =>
    simp only [gated, Bool.and_eq_true] at hg
    obtain ⟨h1, h2⟩ := hg
    have hf := canTrade_true_facts h1
    have hl : (step ps a).length = ps.length + 1 := length_record_fresh hf.1 _ _ _
    have h4 := hf.2.2.2
    exact ih h2 (by omega)

/-- Claim C1 fails as stated: an admission at balance 0 skips the
portfolio-risk check, so after the gated trace with the single
admission `("m1", 10, balance 0)` the open total 10 exceeds
`balance * max_portfolio_risk = 0`. -/
theorem C1_counterexample :
    gated ⟨100, 3/10, 5⟩ [] [⟨"m1", 10, 0, "YES", 1/2⟩] = true ∧
    ¬ (totalAtRisk (run [] [⟨"m1", 10, 0, "YES", 1/2⟩]) ≤
        (0 : ℚ) * (3/10)) := by
  constructor
  · norm_num [gated, canTrade, hasKey, totalAtRisk, step, recordPosition]
  · norm_num [run, step, recordPosition, hasKey, totalAtRisk]

/-- Claim C1, amended: for every gated `can_trade`/`record_position`
trace from a fresh ledger in which every admission is made at a
positive balance, after each admission the sum of open position
amounts does not exceed that admission's balance times
`max_portfolio_risk`, and after every step the number of open
positions never exceeds `max_markets_open`. -/
theorem C1_amended (cfg : Config) (tr : List Admission)
    (hg : gated cfg [] tr = true)
    (hpos : ∀ a ∈ tr, 0 < a.balance) :
    (∀ pre a suf, tr = pre ++ a :: suf →
      totalAtRisk (run [] (pre ++ [a])) ≤ a.balance * cfg.max_portfolio_risk) ∧
    (∀ pre suf, tr = pre ++ suf → (run [] pre).length ≤ cfg.max_markets_open) := by
  constructor
  · intro pre a suf htr
    subst htr
    obtain ⟨hg1, hg2⟩ := @gated_append_split cfg [] pre (a :: suf) hg
    simp only [gated, Bool.and_eq_true] at hg2
    have hf := canTrade_true_facts hg2.1
    have hbal : 0 < a.balance := hpos a (by simp)
    have hb := hf.2.2.1 hbal
    have hrun : run [] (pre ++ [a]) = step (run [] pre) a := by
      rw [run_append]
      rfl
    rw [hrun]
    have ht : totalAtRisk (step (run [] pre) a) =
        totalAtRisk (run [] pre) + a.amount :=
      totalAtRisk_record_fresh hf.1 _ _ _
    rw [ht]
    exact hb
  · intro pre suf htr
    subst htr
    obtain ⟨hg1, _⟩ := @gated_append_split cfg [] pre suf hg
    exact run_length_le hg1 (by simp)

/-- Witness for C1_amended on a concrete one-admission trace at a
positive balance. -/
theorem C1_witness :
    totalAtRisk (run [] [⟨"m1", 10, 100, "YES", 1/2⟩]) ≤
      (100 : ℚ) * (3/10) :=
  (C1_amended ⟨100, 3/10, 5⟩ [⟨"m1", 10, 100, "YES", 1/2⟩]
      (by norm_num [gated, canTrade, hasKey, totalAtRisk, step, recordPosition])
      (by intro a ha
          simp only [List.mem_singleton] at ha
          subst ha
          norm_num)).1
    [] ⟨"m1", 10, 100, "YES", 1/2⟩ [] rfl

end C1Theorems

section StrategyTheorems

open Strategies

/-- Claim C5: `LLMStrategy.should_trade` implements exactly the
specified edge strategy (decline on missing prediction, low
confidence, or edge below 0.05; otherwise YES when predicted exceeds
market, amount `min(max_bet, edge * confidence * 100)`); it never
recommends on low confidence or a small edge; and scenario D (market
0.35, prediction (0.65, 0.75), min_confidence 0.6) yields
`(True, min(max_bet, 22.5), YES)`. -/
theorem C5_edge_strategy (cfg : LLMConfig) (m : Market.Snapshot)
    (a : MarketAnalyzer.EvalScores) (pred : Option Pred) :
    llmShouldTrade cfg m a pred =
      edgeStrategySpec cfg.min_confidence cfg.max_bet (m.probability.getD (1/2)) pred ∧
    (∀ p c r, pred = some (p, c, r) → (llmShouldTrade cfg m a pred).1 = true →
      cfg.min_confidence ≤ c ∧ 1/20 ≤ |p - m.probability.getD (1/2)|) ∧
    (pred = none → (llmShouldTrade cfg m a pred).1 = false) ∧
    llmShouldTrade ⟨3/5, cfg.max_bet⟩ ⟨some (7/20), none, none, none⟩ a
        (some (13/20, 3/4, "r")) =
      (true, min cfg.max_bet (45/2), "YES") := by
  refine ⟨?_, ?_, ?_, ?_⟩
  · cases pred with
    | none => rfl
    | some t =>
      obtain ⟨p, c, r⟩ := t
      simp only [llmShouldTrade, edgeStrategySpec]
  · rintro p c r rfl ht
    simp only [llmShouldTrade] at ht
    by_cases h1 : c < cfg.min_confidence
    · rw [if_pos h1] at ht
      simp at ht
    · rw [if_neg h1] at ht
      by_cases h2 : |p - m.probability.getD (1/2)| < 1/20
      · rw [if_pos h2] at ht
        simp at ht
      · exact ⟨not_lt.mp h1, not_lt.mp h2⟩
  · rintro rfl
    rfl
  · have habs : |(3 : ℚ)/10| = 3/10 := abs_of_pos (by norm_num)
    simp only [llmShouldTrade, Option.getD_some]
    rw [show (13 : ℚ)/20 - 7/20 = 3/10 by norm_num, habs]
    rw [if_neg (by norm_num), if_neg (by norm_num), if_pos (by norm_num)]
    norm_num

/-- Witness for C5_edge_strategy: the never-recommend clause applied at
the concrete scenario-D inputs. -/
theorem C5_witness :
    (3/5 : ℚ) ≤ 3/4 ∧
    (1/20 : ℚ) ≤ |13/20 - ((⟨some (7/20), none, none, none⟩ :
        Market.Snapshot).probability.getD (1/2))| :=
  (C5_edge_strategy ⟨3/5, 50⟩ ⟨some (7/20), none, none, none⟩
      ⟨0, 0, 0, 0, 0⟩ (some (13/20, 3/4, "r"))).2.1 (13/20) (3/4) "r" rfl
    (by
      have habs : |(3 : ℚ)/10| = 3/10 := abs_of_pos (by norm_num)
      norm_num [llmShouldTrade, habs])

end StrategyTheorems

section C6Theorems

open Strategies

/-- Claim C6: `KellyStrategy.should_trade` implements exactly the
specified Kelly strategy over any market probability in [0,1]: decline
on a missing prediction, reframe onto the favored side, decline on
non-positive reframed edge, Kelly fraction `edge / (1 - q)` (0 when
q = 1), amount `min(max_bet, kelly * kelly_fraction * 100)`, declined
below the 1.0 floor; and a recommended side always has positive
reframed edge. -/
theorem C6_kelly_strategy (cfg : KellyConfig) (m : Market.Snapshot)
    (a : MarketAnalyzer.EvalScores) (pred : Option Pred)
    (h0 : 0 ≤ m.probability.getD (1/2)) (h1 : m.probability.getD (1/2) ≤ 1) :
    kellyShouldTrade cfg m a pred =
      kellyStrategySpec cfg.max_bet cfg.kelly_fraction (m.probability.getD (1/2)) pred ∧
    (pred = none → (kellyShouldTrade cfg m a pred).1 = false) ∧
    (∀ p c r, pred = some (p, c, r) → (kellyShouldTrade cfg m a pred).1 = true →
      ((kellyShouldTrade cfg m a pred).2.2 = "YES" → m.probability.getD (1/2) < p) ∧
      ((kellyShouldTrade cfg m a pred).2.2 = "NO" → p < m.probability.getD (1/2))) := by
  refine ⟨?_, ?_, ?_⟩
  · cases pred with
    | none => rfl
    | some t =>
      obtain ⟨p, c, r⟩ := t
      simp only [kellyShouldTrade, kellyStrategySpec]
      revert h0 h1
      generalize m.probability.getD (1/2) = q
      intro h0 h1
      by_cases hpq : p > q
      · have hng : ¬ (p - q ≤ 0) := by linarith
        simp only [if_pos hpq, if_neg hng]
        rcases eq_or_lt_of_le h1 with hq1 | hq1
        · subst hq1
          rw [if_neg (lt_irrefl (1 : ℚ)), if_pos rfl]
        · rw [if_pos hq1, if_neg (ne_of_lt hq1)]
      · by_cases hpe : (1 - p) - (1 - q) ≤ 0
        · simp only [if_neg hpq, if_pos hpe]
        · simp only [if_neg hpq, if_neg hpe]
          have hq2 : 1 - q ≤ 1 := by linarith
          rcases eq_or_lt_of_le hq2 with hq1 | hq1
          · rw [hq1, if_neg (lt_irrefl (1 : ℚ)), if_pos rfl]
          · rw [if_pos hq1, if_neg (ne_of_lt hq1)]
  · rintro rfl
    rfl
  · rintro p c r rfl ht
    simp only [kellyShouldTrade] at ht ⊢
    revert ht
    revert h0 h1
    generalize m.probability.getD (1/2) = q
    intro h0 h1 ht
    by_cases hpq : p > q
    · have hng : ¬ (p - q ≤ 0) := by linarith
      simp only [if_pos hpq, if_neg hng] at ht ⊢
      by_cases hb : min cfg.max_bet ((if q < 1 then (p - q) / (1 - q) else 0) * cfg.kelly_fraction * 100) < 1
      · rw [if_pos hb] at ht
        simp at ht
      · rw [if_neg hb] at ht ⊢
        refine ⟨fun _ => hpq, fun hside => ?_⟩
        simp at hside
    · by_cases hpe : (1 - p) - (1 - q) ≤ 0
      · simp only [if_neg hpq, if_pos hpe] at ht
        simp at ht
      · simp only [if_neg hpq, if_neg hpe] at ht ⊢
        by_cases hb : min cfg.max_bet ((if 1 - q < 1 then ((1 - p) - (1 - q)) / (1 - (1 - q)) else 0) * cfg.kelly_fraction * 100) < 1
        · rw [if_pos hb] at ht
          simp at ht
        · rw [if_neg hb] at ht ⊢
          refine ⟨fun hside => ?_, fun _ => by linarith⟩
          simp at hside


/-- Witness for C6_kelly_strategy at the concrete scenario inputs. -/
theorem C6_witness :
    Strategies.kellyShouldTrade ⟨50, 1/4⟩ ⟨some (7/20), none, none, none⟩
        ⟨0, 0, 0, 0, 0⟩ (some (13/20, 3/4, "r")) =
      Strategies.kellyStrategySpec 50 (1/4)
        ((⟨some (7/20), none, none, none⟩ :
          Market.Snapshot).probability.getD (1/2)) (some (13/20, 3/4, "r")) :=
  (C6_kelly_strategy ⟨50, 1/4⟩ ⟨some (7/20), none, none, none⟩ ⟨0, 0, 0, 0, 0⟩
      (some (13/20, 3/4, "r")) (by norm_num) (by norm_num)).1

end C6Theorems


section C7C8Theorems

open Strategies

/-- The per-side weighted total over all sub-strategies equals the
per-side sum over the collected recommendation list. -/
theorem sideTotal_eq_recs (s : String) (l : List (Strategy × ℚ))
    (m : Market.Snapshot) (a : MarketAnalyzer.EvalScores) (p : Option Pred) :
    (l.map fun sw =>
      let r := sw.1 m a p
      if r.1 ∧ r.2.2 = s then r.2.1 * sw.2 else 0).sum =
    (((l.filterMap fun sw =>
        let r := sw.1 m a p
        if r.1 then some (r.2.1 * sw.2, r.2.2) else none).filter
          (fun ab => ab.2 = s)).map (fun ab => ab.1)).sum := by
  induction l with
  | nil => simp
  | cons hd t ih =>
    simp only [List.map_cons, List.filterMap_cons, List.sum_cons]
    by_cases h1 : (hd.1 m a p).1
    · by_cases h2 : (hd.1 m a p).2.2 = s
      · simp [h1, h2, List.filter_cons, ih]
      · simp [h1, h2, List.filter_cons, ih]
    · simp [h1, ih]

/-- Claim C7: `CompositeStrategy.should_trade` declines when no
sub-strategy recommended trading, recommends YES with the weighted
YES-total when it exceeds the NO-total, recommends NO with the
weighted NO-total when it exceeds the YES-total, and declines on an
exact tie (including the zero-zero case). -/
theorem C7_composite (strategies : List Strategy) (weights : List ℚ)
    (m : Market.Snapshot) (a : MarketAnalyzer.EvalScores) (p : Option Pred) :
    (someRecommended strategies weights m a p = false →
      compositeShouldTrade strategies weights m a p = (false, 0, "NO")) ∧
    (sideTotal "YES" strategies weights m a p > sideTotal "NO" strategies weights m a p →
      compositeShouldTrade strategies weights m a p =
        (true, sideTotal "YES" strategies weights m a p, "YES")) ∧
    (sideTotal "NO" strategies weights m a p > sideTotal "YES" strategies weights m a p →
      compositeShouldTrade strategies weights m a p =
        (true, sideTotal "NO" strategies weights m a p, "NO")) ∧
    (sideTotal "YES" strategies weights m a p = sideTotal "NO" strategies weights m a p →
      compositeShouldTrade strategies weights m a p = (false, 0, "NO")) := by
  have hyes := sideTotal_eq_recs "YES" (strategies.zip weights) m a p
  have hno := sideTotal_eq_recs "NO" (strategies.zip weights) m a p
  refine ⟨?_, ?_, ?_, ?_⟩
  · intro h
    have hre : (strategies.zip weights).filterMap (fun sw =>
        let r := sw.1 m a p
        if r.1 then some (r.2.1 * sw.2, r.2.2) else none) = [] := by
      rw [List.filterMap_eq_nil_iff]
      intro sw hsw
      have : (sw.1 m a p).1 = false := by
        simp only [someRecommended, List.any_eq_false] at h
        simpa using h sw hsw
      simp [this]
    simp only [compositeShouldTrade]
    rw [if_pos hre]
  · intro h
    simp only [sideTotal, hyes, hno] at h
    simp only [compositeShouldTrade, sideTotal, hyes]
    have hne : (strategies.zip weights).filterMap (fun sw =>
        let r := sw.1 m a p
        if r.1 then some (r.2.1 * sw.2, r.2.2) else none) ≠ [] := by
      intro he
      rw [he] at h
      simp at h
    rw [if_neg hne, if_pos h]
  · intro h
    simp only [sideTotal, hyes, hno] at h
    simp only [compositeShouldTrade, sideTotal, hno]
    have hne : (strategies.zip weights).filterMap (fun sw =>
        let r := sw.1 m a p
        if r.1 then some (r.2.1 * sw.2, r.2.2) else none) ≠ [] := by
      intro he
      rw [he] at h
      simp at h
    rw [if_neg hne, if_neg (by linarith), if_pos h]
  · intro h
    simp only [sideTotal, hyes, hno] at h
    simp only [compositeShouldTrade]
    by_cases hre : (strategies.zip weights).filterMap (fun sw =>
        let r := sw.1 m a p
        if r.1 then some (r.2.1 * sw.2, r.2.2) else none) = []
    · rw [if_pos hre]
    · rw [if_neg hre, if_neg (by rw [h]; exact lt_irrefl _),
        if_neg (by rw [h]; exact lt_irrefl _)]

/-- Claim C8: the composite decision depends only on the multiset of
(sub-strategy, weight) pairs: permuting the zipped pair list leaves
the decision unchanged on every input. -/
theorem C8_composite_perm (s1 : List Strategy) (w1 : List ℚ)
    (s2 : List Strategy) (w2 : List ℚ) (m : Market.Snapshot)
    (a : MarketAnalyzer.EvalScores) (p : Option Pred)
    (h : (s1.zip w1).Perm (s2.zip w2)) :
    compositeShouldTrade s1 w1 m a p = compositeShouldTrade s2 w2 m a p := by
  simp only [compositeShouldTrade]
  have hrecs := h.filterMap (fun sw =>
    let r := sw.1 m a p
    if r.1 then some (r.2.1 * sw.2, r.2.2) else none)
  have hlen := hrecs.length_eq
  have hyes := ((hrecs.filter (fun ab => ab.2 = "YES")).map (fun ab => ab.1)).sum_eq
  have hno := ((hrecs.filter (fun ab => ab.2 = "NO")).map (fun ab => ab.1)).sum_eq
  by_cases h2 : (s2.zip w2).filterMap (fun sw =>
      let r := sw.1 m a p
      if r.1 then some (r.2.1 * sw.2, r.2.2) else none) = []
  · have h1 : (s1.zip w1).filterMap (fun sw =>
        let r := sw.1 m a p
        if r.1 then some (r.2.1 * sw.2, r.2.2) else none) = [] := by
      rw [← List.length_eq_zero, hlen, List.length_eq_zero]
      exact h2
    rw [if_pos h1, if_pos h2]
  · have h1 : (s1.zip w1).filterMap (fun sw =>
        let r := sw.1 m a p
        if r.1 then some (r.2.1 * sw.2, r.2.2) else none) ≠ [] := by
      intro hh
      exact h2 (by rw [← List.length_eq_zero, ← hlen, List.length_eq_zero]; exact hh)
    rw [if_neg h1, if_neg h2, hyes, hno]



/-- Witness for C7_composite: an exact tie (20 = 20) declines. -/
theorem C7_witness :
    compositeShouldTrade [constYes, constNo] [2, 5] sampleMarket sampleScores none =
      (false, 0, "NO") :=
  (C7_composite [constYes, constNo] [2, 5] sampleMarket sampleScores none).2.2.2
    (by norm_num +decide [sideTotal, constYes, constNo])

/-- Witness for C8_composite_perm on a concrete two-element swap. -/
theorem C8_witness :
    compositeShouldTrade [constYes, constNo] [1, 2] sampleMarket sampleScores none =
      compositeShouldTrade [constNo, constYes] [2, 1] sampleMarket sampleScores none :=
  C8_composite_perm [constYes, constNo] [1, 2] [constNo, constYes] [2, 1]
    sampleMarket sampleScores none
    (List.Perm.swap ((constNo : Strategy), (2 : ℚ)) ((constYes : Strategy), (1 : ℚ)) [])

end C7C8Theorems

section C9Theorems

open MarketAnalyzer

/-- A non-negative default and non-negative content give a
non-negative lookup. -/
theorem opt_nonneg_getD {o : Option ℚ} {d : ℚ} (hd : 0 ≤ d)
    (h : ∀ x ∈ o, 0 ≤ x) : 0 ≤ o.getD d := by
  cases o with
  | none => exact hd
  | some x => exact h x rfl

/-- The liquidity sub-score stays in [0,1] for non-negative liquidity. -/
theorem liquidityScore_bounds (cfg : Config) (m : Market.Snapshot)
    (hl : ∀ x ∈ m.totalLiquidity, 0 ≤ x) :
    0 ≤ liquidityScore cfg m ∧ liquidityScore cfg m ≤ 1 := by
  have hl0 : (0 : ℚ) ≤ m.totalLiquidity.getD 0 := opt_nonneg_getD le_rfl hl
  simp only [liquidityScore]
  split_ifs with h
  · norm_num
  · exact ⟨le_min (by norm_num) (div_nonneg hl0 (by norm_num)), min_le_left _ _⟩

/-- The time sub-score stays in [0,1] for every close time and clock. -/
theorem timeScore_bounds (m : Market.Snapshot) (now : ℚ) :
    0 ≤ timeScore m now ∧ timeScore m now ≤ 1 := by
  cases hct : m.closeTime with
  | none =>
    simp only [timeScore, hct]
    norm_num
  | some ct =>
    simp only [timeScore, hct]
    split_ifs <;> norm_num

/-- The volatility sub-score stays in [0,1] for non-negative volume. -/
theorem volatilityScore_bounds (m : Market.Snapshot)
    (hv : ∀ x ∈ m.volume24Hours, 0 ≤ x) :
    0 ≤ volatilityScore m ∧ volatilityScore m ≤ 1 := by
  have hv0 : (0 : ℚ) ≤ m.volume24Hours.getD 0 := opt_nonneg_getD le_rfl hv
  have ht : (0 : ℚ) ≤ (if m.totalLiquidity.getD 1 > 0
      then m.volume24Hours.getD 0 / m.totalLiquidity.getD 1 else 0) := by
    split_ifs with h
    · exact div_nonneg hv0 (le_of_lt h)
    · exact le_refl 0
  simp only [volatilityScore]
  exact ⟨le_min (by norm_num) (mul_nonneg ht (by norm_num)), min_le_left _ _⟩

/-- The volume sub-score stays in [0,1] for non-negative volume. -/
theorem volumeScore_bounds (m : Market.Snapshot)
    (hv : ∀ x ∈ m.volume24Hours, 0 ≤ x) :
    0 ≤ volumeScore m ∧ volumeScore m ≤ 1 := by
  have hv0 : (0 : ℚ) ≤ m.volume24Hours.getD 0 := opt_nonneg_getD le_rfl hv
  simp only [volumeScore]
  exact ⟨le_min (by norm_num) (div_nonneg hv0 (by norm_num)), min_le_left _ _⟩

/-- Claim C9: for snapshots with non-negative liquidity and 24h
volume, all four sub-scores and the overall score of
`evaluate_market` lie in [0,1], the overall score is the weighted sum
0.30 x liquidity + 0.25 x time + 0.25 x volatility + 0.20 x volume, and
the two liquidity scenarios hold (150 with floor 50 gives 0.75; 10
with floor 50 gives 0). -/
theorem C9_evaluate (cfg : Config) (m : Market.Snapshot) (now : ℚ)
    (hl : ∀ x ∈ m.totalLiquidity, 0 ≤ x) (hv : ∀ x ∈ m.volume24Hours, 0 ≤ x) :
    (0 ≤ (evaluateMarket cfg m now).liquidity_score ∧
      (evaluateMarket cfg m now).liquidity_score ≤ 1) ∧
    (0 ≤ (evaluateMarket cfg m now).time_score ∧
      (evaluateMarket cfg m now).time_score ≤ 1) ∧
    (0 ≤ (evaluateMarket cfg m now).volatility_score ∧
      (evaluateMarket cfg m now).volatility_score ≤ 1) ∧
    (0 ≤ (evaluateMarket cfg m now).volume_score ∧
      (evaluateMarket cfg m now).volume_score ≤ 1) ∧
    (0 ≤ (evaluateMarket cfg m now).overall_score ∧
      (evaluateMarket cfg m now).overall_score ≤ 1) ∧
    (evaluateMarket cfg m now).overall_score =
      (3/10) * (evaluateMarket cfg m now).liquidity_score +
      (1/4) * (evaluateMarket cfg m now).time_score +
      (1/4) * (evaluateMarket cfg m now).volatility_score +
      (1/5) * (evaluateMarket cfg m now).volume_score ∧
    liquidityScore ⟨50⟩ ⟨none, some 150, none, none⟩ = 3/4 ∧
    liquidityScore ⟨50⟩ ⟨none, some 10, none, none⟩ = 0 := by
  obtain ⟨hL1, hL2⟩ := liquidityScore_bounds cfg m hl
  obtain ⟨hT1, hT2⟩ := timeScore_bounds m now
  obtain ⟨hVt1, hVt2⟩ := volatilityScore_bounds m hv
  obtain ⟨hVo1, hVo2⟩ := volumeScore_bounds m hv
  refine ⟨⟨hL1, hL2⟩, ⟨hT1, hT2⟩, ⟨hVt1, hVt2⟩, ⟨hVo1, hVo2⟩, ⟨?_, ?_⟩, ?_, ?_, ?_⟩
  · show (0 : ℚ) ≤ liquidityScore cfg m * (3/10) + timeScore m now * (1/4) +
      volatilityScore m * (1/4) + volumeScore m * (1/5)
    linarith
  · show liquidityScore cfg m * (3/10) + timeScore m now * (1/4) +
      volatilityScore m * (1/4) + volumeScore m * (1/5) ≤ 1
    linarith
  · show liquidityScore cfg m * (3/10) + timeScore m now * (1/4) +
      volatilityScore m * (1/4) + volumeScore m * (1/5) =
      (3/10) * liquidityScore cfg m + (1/4) * timeScore m now +
      (1/4) * volatilityScore m + (1/5) * volumeScore m
    ring
  · norm_num [liquidityScore, min_def]
  · norm_num [liquidityScore]

/-- Witness for C9_evaluate at a concrete snapshot. -/
theorem C9_witness :
    liquidityScore ⟨50⟩ ⟨none, some 150, none, none⟩ = 3/4 :=
  (C9_evaluate ⟨50⟩ ⟨none, some 150, some 20, none⟩ 0
      (by intro x hx; simp at hx; subst hx; norm_num)
      (by intro x hx; simp at hx; subst hx; norm_num)).2.2.2.2.2.2.1

end C9Theorems

section C2C3Theorems

open LLMAnalyzer

/-- Claim C2 (code bug): the parser is total, but on the fallback path
it does not clamp, so the input "probability: 5" yields probability 5,
outside [0,1], contradicting the documented (0-1) contract. -/
theorem C2_unclamped_fallback :
    parseResponse "probability: 5" =
      (5, 1/2, Reasoning.text "probability: 5") ∧
    1 < (parseResponse "probability: 5").1 := by
  have hb : braceSearch ("probability: 5".toList) = none := by decide
  have hp : searchLabel probLabel ("probability: 5".toList) = some ['5'] := by decide
  have hc : searchLabel confLabel ("probability: 5".toList) = none := by decide
  have hf : pyFloatOfString ['5'] = some 5 := by
    norm_num +decide [pyFloatOfString, natOfDigits, isPyWs, Char.isDigit,
      List.dropWhile, List.takeWhile, show ('5' : Char).toNat = 53 from by decide]
  have ht : (("probability: 5".toList).take 200).asString = "probability: 5" := by decide
  have hmain : parseResponse "probability: 5" =
      (5, 1/2, Reasoning.text "probability: 5") := by
    simp only [parseResponse, hb, hp, hc, hf, ht]
  refine ⟨hmain, ?_⟩
  rw [hmain]
  norm_num

/-- Claim C3 fails as stated: when the fallback finds neither field,
the code returns confidence 0.5 (not 0.0) and echoes the first 200
characters of the raw text (here "hello"), not an "unavailable"
marker. -/
theorem C3_counterexample :
    parseResponse "hello" = (1/2, 1/2, Reasoning.text "hello") ∧
    parseResponse "hello" ≠ (1/2, 0, Reasoning.text "unavailable") := by
  have hb : braceSearch ("hello".toList) = none := by decide
  have hp : searchLabel probLabel ("hello".toList) = none := by decide
  have hc : searchLabel confLabel ("hello".toList) = none := by decide
  have ht : (("hello".toList).take 200).asString = "hello" := by decide
  have hmain : parseResponse "hello" = (1/2, 1/2, Reasoning.text "hello") := by
    simp only [parseResponse, hb, hp, hc, ht]
  refine ⟨hmain, ?_⟩
  rw [hmain]
  intro h
  have h2 := congrArg (fun t => t.2.1) h
  norm_num at h2

/-- Claim C3, amended: on every input without an embedded structured
object, the parser falls back to label pattern-matching; fields found
and convertible are used, missing fields default to 0.5, and the
rationale is the first 200 characters of the raw text; when neither
field is found the result is (0.5, 0.5, first-200-characters), with no
distinguishable unavailable marker; when a matched numeral fails float
conversion the result is the parse-error triple with probability 0.5
and confidence 0.0. -/
theorem C3_amended (response : String)
    (hnb : braceSearch response.toList = none) :
    (searchLabel probLabel response.toList = none →
      searchLabel confLabel response.toList = none →
      parseResponse response =
        (1/2, 1/2, Reasoning.text ((response.toList.take 200).asString))) ∧
    (∀ g q, searchLabel probLabel response.toList = some g →
      pyFloatOfString g = some q →
      searchLabel confLabel response.toList = none →
      parseResponse response =
        (q, 1/2, Reasoning.text ((response.toList.take 200).asString))) ∧
    (∀ g c, searchLabel probLabel response.toList = none →
      searchLabel confLabel response.toList = some g →
      pyFloatOfString g = some c →
      parseResponse response =
        (1/2, c, Reasoning.text ((response.toList.take 200).asString))) ∧
    (∀ g q g2 c, searchLabel probLabel response.toList = some g →
      pyFloatOfString g = some q →
      searchLabel confLabel response.toList = some g2 →
      pyFloatOfString g2 = some c →
      parseResponse response =
        (q, c, Reasoning.text ((response.toList.take 200).asString))) ∧
    (∀ g, searchLabel probLabel response.toList = some g →
      pyFloatOfString g = none →
      (parseResponse response).1 = 1/2 ∧ (parseResponse response).2.1 = 0) ∧
    (∀ g2, searchLabel probLabel response.toList = none →
      searchLabel confLabel response.toList = some g2 →
      pyFloatOfString g2 = none →
      (parseResponse response).1 = 1/2 ∧ (parseResponse response).2.1 = 0) ∧
    (∀ g q g2, searchLabel probLabel response.toList = some g →
      pyFloatOfString g = some q →
      searchLabel confLabel response.toList = some g2 →
      pyFloatOfString g2 = none →
      (parseResponse response).1 = 1/2 ∧ (parseResponse response).2.1 = 0) := by
  refine ⟨?_, ?_, ?_, ?_, ?_, ?_, ?_⟩
  · intro h1 h2
    simp only [parseResponse, hnb, h1, h2]
  · intro g q h1 h2 h3
    simp only [parseResponse, hnb, h1, h2, h3]
  · intro g c h1 h2 h3
    simp only [parseResponse, hnb, h1, h2, h3]
  · intro g q g2 c h1 h2 h3 h4
    simp only [parseResponse, hnb, h1, h2, h3, h4]
  · intro g h1 h2
    simp only [parseResponse, hnb, h1, h2, parseErrorTriple]
    exact ⟨trivial, trivial⟩
  · intro g2 h1 h2 h3
    simp only [parseResponse, hnb, h1, h2, h3, parseErrorTriple]
    exact ⟨trivial, trivial⟩
  · intro g q g2 h1 h2 h3 h4
    simp only [parseResponse, hnb, h1, h2, h3, h4, parseErrorTriple]
    exact ⟨trivial, trivial⟩

/-- Witness for C3_amended on a confidence-only input. -/
theorem C3_witness :
    parseResponse "confidence: 0.9" =
      (1/2, 9/10, Reasoning.text "confidence: 0.9") :=
  (C3_amended "confidence: 0.9" (by decide)).2.2.1
    ['0', '.', '9'] (9/10) (by decide) (by decide)
    (by
      norm_num +decide [pyFloatOfString, natOfDigits, isPyWs, Char.isDigit,
        List.dropWhile, List.takeWhile,
        show ('9' : Char).toNat = 57 from by decide,
        show ('0' : Char).toNat = 48 from by decide])

end C2C3Theorems
